import Mathlib

/-!
# Verification of the Hamilton driver against its specification

This file gives a shallow embedding of the Hamilton dataflow engine's driver
layer (`hamilton/driver.py`), the materialization extension
(`hamilton/io/materialization.py`), and — where the repository snapshot does
not ship the corresponding module (`hamilton/graph.py`, `hamilton/node.py`,
`hamilton/base.py`, `hamilton/execution/*`) — models of the missing pieces
reconstructed from the specification's description of them.  Theorems below
settle the frozen claims about this code.
-/

namespace Hamilton

/-- Python runtime values, as far as the claims need them: `None`, ints,
strings and booleans.  (`driver.py` treats node values opaquely; arithmetic
is only needed for the concrete example graphs.) -/
inductive PyVal where
  | vnone
  | vint (n : Int)
  | vstr (s : String)
  | vbool (b : Bool)
deriving DecidableEq, Repr

/-- Declared Python types for node outputs / inputs, as needed by input
validation (`check_input_type` receives the declared type). -/
inductive Ty where
  | tyInt
  | tyStr
  | tyBool
  | tyDict
  | tyAny
deriving DecidableEq, Repr

/-- Dependency kind from `hamilton/node.py` (`DependencyType`): REQUIRED when
the function parameter has no default, OPTIONAL when a default exists. -/
inductive DepType where
  | required
  | optional
deriving DecidableEq, Repr

/-- A node of the function graph (model of `hamilton.node.Node`): a name, a
declared output type, the input types (parameter name, declared type,
dependency kind), whether it is a user-defined (external input) node, and
its callable, invoked with exactly the keyword arguments named by its
resolved dependencies. -/
structure PNode where
  name : String
  type : Ty
  inputTypes : List (String × Ty × DepType)
  userDefined : Bool
  fn : List (String × PyVal) → PyVal

/-- The names of a node's dependencies (the keys of `input_types`). -/
def PNode.depNames (n : PNode) : List String :=
  n.inputTypes.map (fun p => p.1)

/-- Model of `hamilton.graph.FunctionGraph`: the node mapping (modelled as a
list keyed by node name) plus the configuration mapping. -/
structure FunctionGraph where
  nodes : List PNode
  config : List (String × PyVal)

/-- All node names of the graph. -/
def FunctionGraph.nodeNames (g : FunctionGraph) : List String :=
  g.nodes.map (fun n => n.name)

/-- Node lookup by name (model of `graph.nodes[name]` / `name in graph.nodes`). -/
def FunctionGraph.findNode (g : FunctionGraph) (name : String) : Option PNode :=
  g.nodes.find? (fun n => n.name == name)

/-- The consumers of a node (model of the `depended_on_by` back-reference
set, recovered from the forward edges as the spec's design note suggests:
"implement via an index ... plus adjacency lists of names"). -/
def FunctionGraph.dependedOnBy (g : FunctionGraph) (name : String) : List PNode :=
  g.nodes.filter (fun n => n.depNames.contains name)

/-! ## V1 execution (depth-first memoized recursion)

`FunctionGraph.execute` lives in `hamilton/graph.py`, which is not part of
the repository snapshot.  Modelled from the spec: "given a node subset, a
mutable memo table, overrides, and inputs, compute every node's value via
depth-first memoized recursion — each node is computed at most once, with
overrides taking absolute precedence over computation, and runtime inputs
taking precedence for user-defined nodes."  The model uses explicit fuel for
the recursion and records the order in which node callables are invoked, so
that invocation-count claims can be stated. -/

/-- Run-scoped execution state: the memo table (assoc list, first entry for a
key wins on lookup, mirroring a Python dict populated once per key) and the
list of node names whose callable has been invoked, most recent first. -/
structure ExecState where
  memo : List (String × PyVal)
  invoked : List String
deriving Repr

/-- The keys currently present in the memo table. -/
def ExecState.memoKeys (st : ExecState) : List String :=
  st.memo.map (fun p => p.1)

/-- A pending step of the depth-first traversal: `visit name` asks for the
node's value (memo check, override, user input, or expansion into its
dependencies), `finalize name` invokes the node's callable once its
dependencies have all been computed into the memo table. -/
inductive Frame where
  | visit (name : String)
  | finalize (name : String)
deriving DecidableEq, Repr

/-- Modelled from the spec: depth-first memoized evaluation
(`FunctionGraph.execute` in the missing `hamilton/graph.py`), rendered as
the equivalent explicit-stack traversal so the recursion is structural in
the fuel.  Visiting a node: the memo table is checked first; an override
takes absolute precedence over computation (the callable is not invoked
and the upstream subtree is not visited); a user-defined node reads its
value from runtime inputs/config (inputs taking precedence); otherwise the
node's dependencies are pushed, followed by the node's own `finalize`
frame.  Finalizing invokes the callable with exactly the resolved keyword
arguments and memoizes the result.  `none` on fuel exhaustion or an
unresolvable reference. -/
def executeFrames (g : FunctionGraph) (overrides inputs : List (String × PyVal)) :
    Nat → List Frame → ExecState → Option ExecState
  | 0, _, _ => none
  | Nat.succ _, [], st => some st
  | Nat.succ fuel, Frame.visit n :: rest, st =>
    if st.memoKeys.contains n then executeFrames g overrides inputs fuel rest st
    else
      match overrides.lookup n with
      | some v =>
        executeFrames g overrides inputs fuel rest ⟨(n, v) :: st.memo, st.invoked⟩
      | none =>
        match g.findNode n with
        | none => none
        | some nd =>
          if nd.userDefined then
            match (inputs ++ g.config).lookup n with
            | some v =>
              executeFrames g overrides inputs fuel rest ⟨(n, v) :: st.memo, st.invoked⟩
            | none => none
          else
            executeFrames g overrides inputs fuel
              (nd.depNames.map Frame.visit ++ (Frame.finalize n :: rest)) st
  | Nat.succ fuel, Frame.finalize n :: rest, st =>
    match g.findNode n with
    | none => none
    | some nd =>
      let kwargs := nd.depNames.filterMap
        (fun d => (st.memo.lookup d).map (fun v => (d, v)))
      executeFrames g overrides inputs fuel rest
        ⟨(n, nd.fn kwargs) :: st.memo, n :: st.invoked⟩

/-! ## Upstream closure -/

/-- Modelled from the spec: the worklist traversal inside
`FunctionGraph.get_upstream_nodes` (in the missing `hamilton/graph.py`):
"a reverse reachability walk from the requested names along dependency
edges, pruned at any node whose name is present in overrides (an override
value short-circuits its entire upstream subtree: the node and everything
solely feeding it are excluded unless also required by something else)". -/
def upstreamVisit (g : FunctionGraph) (pruneKeys : List String) :
    Nat → List String → List String → List String
  | 0, _, visited => visited
  | Nat.succ _, [], visited => visited
  | Nat.succ fuel, n :: rest, visited =>
    if visited.contains n || pruneKeys.contains n then
      upstreamVisit g pruneKeys fuel rest visited
    else
      let next :=
        match g.findNode n with
        | some nd => nd.depNames
        | none => []
      upstreamVisit g pruneKeys fuel (next ++ rest) (n :: visited)

/-- A fuel bound ample for the worklist traversal: every step either pops the
worklist or marks a new node visited while pushing at most all dependency
edges of the graph. -/
def closureFuel (g : FunctionGraph) (seeds : List String) : Nat :=
  (g.nodes.length + seeds.length + 1) *
    (g.nodes.foldl (fun a n => a + n.depNames.length) 0 + 2)

/-- Modelled from the spec: `FunctionGraph.get_upstream_nodes` — computes the
minimal node set that must execute for the requested names, "Returns both
the transform-node set and the user-defined (external-input) node subset,
since the latter need separate validation."  Runtime inputs supply values
for user-defined nodes and do not alter the walk; overrides prune it. -/
def FunctionGraph.get_upstream_nodes (g : FunctionGraph) (final_vars : List String)
    (_runtime_inputs : List (String × PyVal))
    (runtime_overrides : Option (List (String × PyVal))) :
    List PNode × List PNode :=
  let pruneKeys := (runtime_overrides.getD []).map (fun p => p.1)
  let visited := upstreamVisit g pruneKeys (closureFuel g final_vars) final_vars []
  let ns := g.nodes.filter (fun n => visited.contains n.name)
  (ns, ns.filter (fun n => n.userDefined))

/-! ## Input validation (`DriverCommon.validate_inputs`, driver.py:187-224) -/

/-- Modelled from the spec: `graph_functions.combine_config_and_inputs`
(missing `hamilton/execution/graph_functions.py`) — merges the graph's
config with the runtime inputs, failing when "the runtime inputs ... clash
with the graph's config". -/
def combine_config_and_inputs (config inputs : List (String × PyVal)) :
    Except String (List (String × PyVal)) :=
  if config.any (fun p => (inputs.lookup p.1).isSome) then
    Except.error "Error: config and inputs have overlapping keys."
  else
    Except.ok (inputs ++ config)

/-- `DriverCommon._node_is_required_by_anything` (driver.py:168-185): of the
nodes depending on this one that lie in the provided node set, at least one
has it as a REQUIRED (non-defaulted) parameter. -/
def node_is_required_by_anything (g : FunctionGraph) (n : PNode)
    (nodesSet : List String) : Bool :=
  (g.dependedOnBy n.name).any (fun dn =>
    nodesSet.contains dn.name &&
      match dn.inputTypes.lookup n.name with
      | some (_, dt) => dt == DepType.required
      | none => false)

/-- A single-quote character, for rendering Python list literals. -/
def sq : String := String.singleton (Char.ofNat 39)

/-- Rendering of a Python list of strings, as `str()` would print it. -/
def pyStrList (l : List String) : String :=
  "[" ++ String.intercalate ", " (l.map (fun s => sq ++ s ++ sq)) ++ "]"

/-- Rendering of a declared type, standing in for Python's `str(type)`. -/
def tyName : Ty → String
  | Ty.tyInt => "int"
  | Ty.tyStr => "str"
  | Ty.tyBool => "bool"
  | Ty.tyDict => "dict"
  | Ty.tyAny => "any"

/-- Rendering of a runtime value, standing in for Python's f-string
interpolation of the value. -/
def pyValStr : PyVal → String
  | PyVal.vnone => "None"
  | PyVal.vint n => toString n
  | PyVal.vstr s => s
  | PyVal.vbool b => if b then "True" else "False"

/-- The Python runtime type of a value, standing in for `type(value)`. -/
def pyValTypeStr : PyVal → String
  | PyVal.vnone => "NoneType"
  | PyVal.vint _ => "int"
  | PyVal.vstr _ => "str"
  | PyVal.vbool _ => "bool"

/-- The "Required input ... not provided" message built at driver.py:210-213. -/
def missingInputMsg (g : FunctionGraph) (n : PNode) : String :=
  "Error: Required input " ++ n.name ++ " not provided for nodes: " ++
    pyStrList ((g.dependedOnBy n.name).map (fun dn => dn.name)) ++ "."

/-- The "Type requirement mismatch" message built at driver.py:217-220. -/
def typeMismatchMsg (n : PNode) (v : PyVal) : String :=
  "Error: Type requirement mismatch. Expected " ++ n.name ++ ":" ++ tyName n.type ++
    " got " ++ pyValStr v ++ ":" ++ pyValTypeStr v ++ " instead."

/-- One iteration of the validation loop of `DriverCommon.validate_inputs`
(driver.py:207-220): a missing required input yields the missing-input
error; a supplied non-`None` value failing the adapter's
`check_input_type` yields the type-mismatch error; otherwise no error. -/
def perNodeError (g : FunctionGraph) (check : Ty → PyVal → Bool)
    (allInputs : List (String × PyVal)) (nodesSet : List String)
    (un : PNode) : Option String :=
  match allInputs.lookup un.name with
  | none =>
    if node_is_required_by_anything g un nodesSet then some (missingInputMsg g un)
    else none
  | some v =>
    if v != PyVal.vnone && !(check un.type v) then some (typeMismatchMsg un v)
    else none

/-- Lexicographic comparison of character lists by Unicode code point,
mirroring how Python compares the error-message strings in `errors.sort()`. -/
def charListLe : List Char → List Char → Bool
  | [], _ => true
  | _ :: _, [] => false
  | a :: as, b :: bs =>
    if a.toNat = b.toNat then charListLe as bs
    else decide (a.toNat < b.toNat)

/-- Lexicographic string comparison by code point (Python's `str` order). -/
def strLeB (a b : String) : Bool := charListLe a.data b.data

/-- The aggregate message of driver.py:223: `f"{len(errors)} errors
encountered:\n  " + "\n  ".join(errors)`. -/
def aggregateErrors (errors : List String) : String :=
  toString errors.length ++ " errors encountered:\n  " ++
    String.intercalate "\n  " errors

/-- `DriverCommon.validate_inputs` (driver.py:187-224): combines config and
runtime inputs, collects the per-node errors in node order, and — when any
exist — sorts them and raises a single aggregate `ValueError`. -/
def validate_inputs (g : FunctionGraph) (check : Ty → PyVal → Bool)
    (user_nodes : List PNode) (inputs : List (String × PyVal))
    (nodesSet : List String) : Except String Unit :=
  match combine_config_and_inputs g.config inputs with
  | Except.error e => Except.error e
  | Except.ok allInputs =>
    let errors := user_nodes.filterMap (perNodeError g check allInputs nodesSet)
    if errors.isEmpty then Except.ok ()
    else
      Except.error
        (aggregateErrors (List.insertionSort (fun a b => strLeB a b = true) errors))

/-! ## V1 driver execution (`Driver.execute` / `Driver.raw_execute`) -/

/-- The total number of dependency references in the graph. -/
def totalDepCount (g : FunctionGraph) : Nat :=
  g.nodes.foldl (fun a n => a + n.depNames.length) 0

/-- `FunctionGraph.execute` over a node subset with a fresh memo table:
every requested name is visited depth-first.  The fuel is ample for a
DAG: each node is expanded and finalized at most once, and every skipped
revisit consumes one step per dependency reference. -/
def runExecution (g : FunctionGraph) (overrides inputs : List (String × PyVal))
    (nodeNames : List String) : Option ExecState :=
  executeFrames g overrides inputs
    (2 * g.nodes.length + totalDepCount g + nodeNames.length + 4)
    (nodeNames.map Frame.visit) ⟨[], []⟩

/-- `Driver.raw_execute` (driver.py:654-690): computes the upstream closure
of the requested outputs, validates inputs over it, executes the node
subset into a fresh memo table, and gathers exactly the requested
variables from the memo table. -/
def raw_execute (g : FunctionGraph) (check : Ty → PyVal → Bool)
    (final_vars : List String) (overrides inputs : List (String × PyVal)) :
    Except String (List (String × PyVal)) :=
  let (nodes, user_nodes) := g.get_upstream_nodes final_vars inputs none
  match validate_inputs g check user_nodes inputs (nodes.map (fun n => n.name)) with
  | Except.error e => Except.error e
  | Except.ok _ =>
    match runExecution g overrides inputs (nodes.map (fun n => n.name)) with
    | none => Except.error "Error: could not execute the requested node subset."
    | some st =>
      match final_vars.mapM (fun c => (st.memo.lookup c).map (fun v => (c, v))) with
      | none => Except.error "KeyError: requested output missing from memo table."
      | some outputs => Except.ok outputs

/-- `Driver.execute` (driver.py:613-652): `raw_execute` followed by the
adapter's `build_result` on the gathered outputs (the telemetry capture in
its `finally` block never alters the result, see `capture_function_usage`
below for the wrapper pattern). -/
def Driver_execute {R : Type} (g : FunctionGraph) (check : Ty → PyVal → Bool)
    (build_result : List (String × PyVal) → R) (final_vars : List String)
    (overrides inputs : List (String × PyVal)) : Except String R :=
  (raw_execute g check final_vars overrides inputs).map build_result

/-! ## Path-between (`DriverCommon.what_is_the_path_between`, driver.py:486-507) -/

/-- There is a dependency edge from `a` to `b`: some node named `b` consumes
`a` (the forward direction in which data flows). -/
def edgeB (g : FunctionGraph) (a b : String) : Bool :=
  g.nodes.any (fun n => n.name == b && n.depNames.contains a)

/-- The names of the nodes consuming `a`. -/
def consumersOf (g : FunctionGraph) (a : String) : List String :=
  (g.dependedOnBy a).map (fun n => n.name)

/-- Fuel-bounded forward reachability: `b` is reachable from `a` along at
most `fuel` dependency edges. -/
def reachN (g : FunctionGraph) : Nat → String → String → Bool
  | 0, a, b => a == b
  | Nat.succ fuel, a, b => a == b || (consumersOf g a).any (fun c => reachN g fuel c b)

/-- Forward reachability; a simple path never needs more edges than the
graph has nodes. -/
def reachB (g : FunctionGraph) (a b : String) : Bool :=
  reachN g g.nodes.length a b

/-- Propositional forward reachability along dependency edges. -/
inductive Reaches (g : FunctionGraph) : String → String → Prop
  | refl (a : String) : Reaches g a a
  | head {a c b : String} : edgeB g a c = true → Reaches g c b → Reaches g a b

/-- An explicit edge chain from `a` through the listed intermediate names
to `b`. -/
def chainHolds (g : FunctionGraph) : String → List String → String → Prop
  | a, [], b => a = b
  | a, c :: l, b => edgeB g a c = true ∧ chainHolds g c l b

/-- Modelled from the spec: `FunctionGraph.nodes_between` (missing
`hamilton/graph.py`) — "nodes lying on any path from an upstream name to a
downstream name, inclusive; unsorted; empty if no path exists": exactly
the nodes reachable from the upstream name from which the downstream name
is reachable in turn. -/
def FunctionGraph.nodes_between (g : FunctionGraph) (u d : String) : List PNode :=
  g.nodes.filter (fun n => reachB g u n.name && reachB g n.name d)

/-- `DriverCommon.what_is_the_path_between` (driver.py:486-507): raises when
either endpoint name is absent from the graph, otherwise hands back the
nodes computed by `nodes_between`. -/
def what_is_the_path_between (g : FunctionGraph) (u d : String) :
    Except String (List String) :=
  if !(g.nodeNames.contains u) then
    Except.error ("Upstream node " ++ u ++ " not found in graph.")
  else if !(g.nodeNames.contains d) then
    Except.error ("Downstream node " ++ d ++ " not found in graph.")
  else
    Except.ok ((g.nodes_between u d).map (fun n => n.name))

/-- The diamond graph A→B, A→C, B→D, C→D of the path-between example. -/
def diamondGraph : FunctionGraph :=
  ⟨[⟨"A", Ty.tyInt, [], false, fun _ => PyVal.vint 0⟩,
    ⟨"B", Ty.tyInt, [("A", Ty.tyInt, DepType.required)], false, fun _ => PyVal.vint 0⟩,
    ⟨"C", Ty.tyInt, [("A", Ty.tyInt, DepType.required)], false, fun _ => PyVal.vint 0⟩,
    ⟨"D", Ty.tyInt,
      [("B", Ty.tyInt, DepType.required), ("C", Ty.tyInt, DepType.required)],
      false, fun _ => PyVal.vint 0⟩], []⟩

/-! ## The Builder (`driver.Builder`, driver.py:779-963) -/

/-- Task executor descriptors (`hamilton/execution/executors.py` is missing;
modelled from the spec: "a synchronous in-process executor, a process-pool
executor (bounded concurrency ...), and a remote executor stub").  Only
identity and construction parameters matter to the Builder claims. -/
inductive TaskExecutorD where
  | synchronousLocal
  | multiProcessing (max_tasks : Nat)
  | custom (id : Nat)
deriving DecidableEq, Repr

/-- Execution manager descriptors; the default pairs a local and a remote
task executor. -/
inductive ExecutionManagerD where
  | defaultManager (localE remoteE : TaskExecutorD)
  | custom (id : Nat)
deriving DecidableEq, Repr

/-- Grouping strategy descriptors; the default groups repeatable blocks. -/
inductive GroupingStrategyD where
  | groupByRepeatableBlocks
  | custom (id : Nat)
deriving DecidableEq, Repr

/-- Result builder descriptors; the V2 driver defaults to `DictResult`. -/
inductive ResultBuilderD where
  | dictResult
  | custom (id : Nat)
deriving DecidableEq, Repr

/-- The Python objects a Builder field can hold.  Builder fields are
dynamically typed in the source: `v2_driver` holds a bool while the guard
helpers compare a field against the sentinel `None`, so the booleans and
the sentinel must live in one value space. -/
inductive PyObj where
  | pynone
  | pybool (b : Bool)
  | adapterObj (id : Nat)
  | emObj (e : ExecutionManagerD)
  | execObj (e : TaskExecutorD)
  | gsObj (s : GroupingStrategyD)
  | rbObj (r : ResultBuilderD)
deriving DecidableEq, Repr

/-- Python truthiness of the objects above (`None` and `False` are falsy). -/
def truthy : PyObj → Bool
  | PyObj.pynone => false
  | PyObj.pybool b => b
  | _ => true

/-- `driver.Builder` state (driver.py:785-801). -/
structure Builder where
  v2_driver : PyObj
  config : List (String × PyVal)
  modules : List Nat
  adapter : PyObj
  execution_manager : PyObj
  local_executor : PyObj
  remote_executor : PyObj
  grouping_strategy : PyObj
  result_builder : PyObj
deriving Repr

/-- `Builder.__init__` (driver.py:785-801): `v2_driver` starts as `False`,
every other optional field as `None`. -/
def Builder.init : Builder :=
  ⟨PyObj.pybool false, [], [], PyObj.pynone, PyObj.pynone, PyObj.pynone,
    PyObj.pynone, PyObj.pynone, PyObj.pynone⟩

/-- `Builder._require_field_unset` (driver.py:807-809) at its default
`unset_value=None`: raises unless the field currently compares equal to
`None`. -/
def require_field_unset (v : PyObj) (msg : String) : Except String Unit :=
  if v != PyObj.pynone then Except.error msg else Except.ok ()

/-- `Builder.with_adapter` (driver.py:856-865): requires the `v2_driver`
field unset (against sentinel `None`) and then the adapter unset, then
stores the adapter. -/
def Builder.with_adapter (b : Builder) (a : Nat) : Except String Builder :=
  match require_field_unset b.v2_driver "Cannot set adapter with v2 driver enabled." with
  | Except.error e => Except.error e
  | Except.ok _ =>
    match require_field_unset b.adapter "Cannot set adapter twice." with
    | Except.error e => Except.error e
    | Except.ok _ => Except.ok { b with adapter := PyObj.adapterObj a }

/-- `Builder.enable_v2_driver` (driver.py:815-834). -/
def Builder.enable_v2_driver (b : Builder) (allow_experimental_mode : Bool) :
    Except String Builder :=
  if !allow_experimental_mode then
    Except.error
      ("Remote execution is currently experimental. " ++
        "Please set allow_experiemental_mode=True to enable it.")
  else
    match require_field_unset b.adapter "Cannot enable remote execution with an adapter set." with
    | Except.error e => Except.error e
    | Except.ok _ => Except.ok { b with v2_driver := PyObj.pybool true }

/-- What `Builder.build` returns: either a V1 `Driver` over config, modules
and adapter, or a `DriverV2` with its execution parameters (the V2 result
builder defaulting applied by `DriverV2.__init__`, driver.py:723). -/
inductive BuiltDriver where
  | v1 (config : List (String × PyVal)) (modules : List Nat) (adapter : PyObj)
  | v2 (config : List (String × PyVal)) (modules : List Nat)
      (execution_manager : ExecutionManagerD) (grouping_strategy : GroupingStrategyD)
      (result_builder : ResultBuilderD)
deriving Repr

/-- `Builder.build` (driver.py:938-963) combined with `DriverV2.__init__`
(driver.py:702-723): without the V2 toggle, a V1 `Driver` over the
accumulated config, modules and adapter; with it, defaults are filled in —
an execution manager pairing the synchronous local executor with a
`MultiProcessingExecutor(max_tasks=10)`, `GroupByRepeatableBlocks`
grouping, and the `DictResult` result builder. -/
def Builder.build (b : Builder) : BuiltDriver :=
  if !truthy b.v2_driver then BuiltDriver.v1 b.config b.modules b.adapter
  else
    let execution_manager :=
      match b.execution_manager with
      | PyObj.emObj e => e
      | _ =>
        let localE :=
          match b.local_executor with
          | PyObj.execObj e => e
          | _ => TaskExecutorD.synchronousLocal
        let remoteE :=
          match b.remote_executor with
          | PyObj.execObj e => e
          | _ => TaskExecutorD.multiProcessing 10
        ExecutionManagerD.defaultManager localE remoteE
    let grouping_strategy :=
      match b.grouping_strategy with
      | PyObj.gsObj s => s
      | _ => GroupingStrategyD.groupByRepeatableBlocks
    let result_builder :=
      match b.result_builder with
      | PyObj.rbObj r => r
      | _ => ResultBuilderD.dictResult
    BuiltDriver.v2 b.config b.modules execution_manager grouping_strategy result_builder

/-! ## Materialization (`hamilton/io/materialization.py`) -/

/-- Model of `base.ResultMixin` as the materializer needs it: a result
joiner with its output type (`hamilton/base.py` is missing; modelled from
the spec's Graph Adapter contract: `build_result` assembles a mapping of
node values into one result). -/
structure RMixin where
  build_result : List (String × PyVal) → PyVal
  output_type : Ty

/-- `MaterializerFactory` (materialization.py:38-51): a named saver
specification with an optional result joiner and named dependencies. -/
structure MaterializerFactory where
  name : String
  savers : List Nat
  result_builder : Option RMixin
  dependencies : List String

/-- Modelled from the spec: `SaveToDecorator.create_saver_node` (missing
`hamilton/function_modifiers/adapters.py`) — synthesizes the data-saving
node, named after the materializer, consuming the single save dependency;
the saver's I/O side effect is outside the graph model, the node returns a
lineage token. -/
def mkSaverNode (fname : String) (dep : PNode) : PNode :=
  ⟨fname, Ty.tyDict, [(dep.name, dep.type, DepType.required)], false,
    fun _ => PyVal.vstr "saved"⟩

/-- `MaterializerFactory._resolve_dependencies` (materialization.py:70-71):
`[fn_graph.nodes[name] for name in self.dependencies]`; `none` models the
`KeyError` on a missing name. -/
def resolveDeps (g : FunctionGraph) : List String → Option (List PNode)
  | [] => some []
  | name :: rest =>
    match g.findNode name with
    | none => none
    | some nd =>
      match resolveDeps g rest with
      | none => none
      | some rest2 => some (nd :: rest2)

/-- `MaterializerFactory.resolve` (materialization.py:73-113): with a result
joiner, synthesizes the `<name>_build_result` join node plus the save node
consuming it; without one, requires exactly one dependency and synthesizes
the save node alone.  Looking up a missing dependency raises (`KeyError`),
as does the multi-dependency-without-joiner case (`ValueError`). -/
def MaterializerFactory.resolve (f : MaterializerFactory) (g : FunctionGraph) :
    Except String (List PNode) :=
  match resolveDeps g f.dependencies with
  | none => Except.error ("KeyError: a dependency of materializer " ++ f.name ++
      " is not a node of the graph.")
  | some node_dependencies =>
    match f.result_builder with
    | none =>
      if node_dependencies.length != 1 then
        Except.error
          ("Must specify result builder if the materializer has more than one dependency " ++
            "it is materializing. Otherwise we have no way to join them before storage! " ++
            "See materializer " ++ f.name ++ ".")
      else
        match node_dependencies with
        | [dep] => Except.ok [mkSaverNode f.name dep]
        | _ => Except.error "unreachable"
    | some rb =>
      let join_node : PNode :=
        ⟨f.name ++ "_build_result", rb.output_type,
          node_dependencies.map (fun dep => (dep.name, dep.type, DepType.required)),
          false, fun kwargs => rb.build_result kwargs⟩
      Except.ok [join_node, mkSaverNode f.name join_node]

/-- The dict comprehension `{node_.name: node_ for node_ in additional_nodes}`
of materialization.py:159: keyed by name, a later node with the same name
replaces the earlier value in place. -/
def upsertNode (acc : List PNode) (n : PNode) : List PNode :=
  if acc.any (fun m => m.name == n.name) then
    acc.map (fun m => if m.name == n.name then n else m)
  else acc ++ [n]

/-- Builds the name-keyed node mapping from the synthesized node list. -/
def pyNodeDict (l : List PNode) : List PNode :=
  l.foldl upsertNode []

/-- Modelled from the spec: `FunctionGraph.with_nodes` (missing
`hamilton/graph.py`) — "producing a new graph that is the union of the old
node set and new nodes, rejecting name collisions". -/
def FunctionGraph.with_nodes (g : FunctionGraph) (new : List PNode) :
    Except String FunctionGraph :=
  if new.any (fun n => g.nodeNames.contains n.name) then
    Except.error "Graph already contains a node with a name being added."
  else
    Except.ok ⟨g.nodes ++ new, g.config⟩

/-- The resolution loop of `modify_graph` (materialization.py:156-158):
`additional_nodes.extend(materializer.resolve(fn_graph))` over the factory
list. -/
def collectResolved (g : FunctionGraph) :
    List MaterializerFactory → Except String (List PNode)
  | [] => Except.ok []
  | f :: fs =>
    match f.resolve g with
    | Except.error e => Except.error e
    | Except.ok l =>
      match collectResolved g fs with
      | Except.error e => Except.error e
      | Except.ok rest => Except.ok (l ++ rest)

/-- `modify_graph` (materialization.py:147-159): resolves every materializer
factory against the (unchanged) input graph and returns a new graph with
the synthesized node mapping appended. -/
def modify_graph (g : FunctionGraph) (fs : List MaterializerFactory) :
    Except String FunctionGraph :=
  match collectResolved g fs with
  | Except.error e => Except.error e
  | Except.ok additional => g.with_nodes (pyNodeDict additional)

/-! ## Telemetry wrapper (`capture_function_usage`, driver.py:37-64) -/

/-- Python `try/finally` semantics: the body's outcome stands unless the
`finally` suite itself raises, in which case that exception replaces it. -/
def tryFinally {E β : Type} (body : Except E β) (fin : Except E Unit) : Except E β :=
  match fin with
  | Except.ok _ => body
  | Except.error e => Except.error e

/-- The `finally` suite of `capture_function_usage` (driver.py:52-62): when
telemetry is enabled, the event construction and send run inside a
`try/except Exception` whose handler only logs — any failure there is
swallowed.  The telemetry internals (`telemetry.is_telemetry_enabled`,
`telemetry.send_event_json`) live in the missing `hamilton/telemetry.py`;
modelled from the spec as an arbitrary enabled-flag and an arbitrary send
outcome ("strictly best-effort instrumentation paths"). -/
def telemetrySuite {E : Type} (enabled : Bool) (send : Except E Unit) : Except E Unit :=
  if enabled then
    match send with
    | Except.ok _ => Except.ok ()
    | Except.error _ => Except.ok ()
  else Except.ok ()

/-- `capture_function_usage` (driver.py:37-64): wraps a driver function so
that its invocation is reported to telemetry after the call, inside a
`try/finally`. -/
def capture_function_usage {E α β : Type} (call_fn : α → Except E β)
    (enabled : Bool) (send : Except E Unit) : α → Except E β :=
  fun x => tryFinally (call_fn x) (telemetrySuite enabled send)

/-! ## V2 result-cache prehydration (`DriverV2.execute`, driver.py:740-776) -/

/-- driver.py:762: `prehydrated_results = {**overrides, **inputs}` — a Python
dict literal in which a later unpacking wins on a shared key.  Modelled as
an assoc list whose `lookup` finds the `inputs` entry first. -/
def prehydrated_results (overrides inputs : List (String × PyVal)) :
    List (String × PyVal) :=
  inputs ++ overrides

/-- Modelled from the spec: `state.DictBasedResultCache` (missing
`hamilton/execution/state.py`) — the run-scoped "mapping from node name →
computed value, pre-populated with overrides and runtime inputs before any
task runs", read by name. -/
def resultCacheRead (cache : List (String × PyVal)) (name : String) : Option PyVal :=
  cache.lookup name

/-! ## Concrete graphs used by the claims -/

/-- Helper for two-argument integer node callables in the example graphs. -/
def intBin (kw : List (String × PyVal)) (a b : String) (f : Int → Int → Int) : PyVal :=
  match kw.lookup a, kw.lookup b with
  | some (PyVal.vint x), some (PyVal.vint y) => PyVal.vint (f x y)
  | _, _ => PyVal.vnone

/-- The node `x() -> 1` of the end-to-end example. -/
def nodeX : PNode := ⟨"x", Ty.tyInt, [], false, fun _ => PyVal.vint 1⟩

/-- The node `y() -> 2` of the end-to-end example. -/
def nodeY : PNode := ⟨"y", Ty.tyInt, [], false, fun _ => PyVal.vint 2⟩

/-- The node `z(x, y) -> x + y` of the end-to-end example. -/
def nodeZ : PNode :=
  ⟨"z", Ty.tyInt,
    [("x", Ty.tyInt, DepType.required), ("y", Ty.tyInt, DepType.required)],
    false, fun kw => intBin kw "x" "y" (fun a b => a + b)⟩

/-- The end-to-end example graph: `x() -> 1`, `y() -> 2`, `z(x, y) -> x + y`. -/
def xyzGraph : FunctionGraph := ⟨[nodeX, nodeY, nodeZ], []⟩

/-- An external-input node named `s`, of declared type `ty`, for the
validation examples. -/
def inputNode (s : String) (ty : Ty) : PNode := ⟨s, ty, [], true, fun _ => PyVal.vnone⟩

/-- Consumer node `f(a, b, c=None)` of the validation example: `a` and `b`
are REQUIRED inputs, `c` is OPTIONAL. -/
def nodeF : PNode :=
  ⟨"f", Ty.tyInt,
    [("a", Ty.tyInt, DepType.required), ("b", Ty.tyInt, DepType.required),
     ("c", Ty.tyInt, DepType.optional)],
    false, fun _ => PyVal.vint 0⟩

/-- The validation example graph: required inputs `a` and `b`, optional
input `c`, all consumed by `f`. -/
def abcGraph : FunctionGraph :=
  ⟨[inputNode "a" Ty.tyInt, inputNode "b" Ty.tyInt, inputNode "c" Ty.tyInt, nodeF], []⟩

/-- The user-defined (external input) nodes of the validation example, as
the upstream closure hands them to `validate_inputs`. -/
def abcUserNodes : List PNode :=
  (abcGraph.get_upstream_nodes ["f"] [] none).2

/-- A dict-producing node for the materialization examples (the
`only_node`/`first_node`/`second_node` shape of the repository's
materialization tests). -/
def dictNode (s : String) : PNode :=
  ⟨s, Ty.tyDict, [], false, fun _ => PyVal.vstr s⟩

/-- Single-node graph for the no-joiner materialization example. -/
def matG0 : FunctionGraph := ⟨[dictNode "only_node"], []⟩

/-- Two-node graph for the with-joiner materialization example. -/
def matG1 : FunctionGraph := ⟨[dictNode "first_node", dictNode "second_node"], []⟩

/-- A result joiner for the materialization example (the `JoinBuilder` of
the repository's materialization tests). -/
def jbJoin : RMixin := ⟨fun _ => PyVal.vstr "joined", Ty.tyDict⟩

/-- Materializer factory without a result joiner over one dependency. -/
def fNoJoin : MaterializerFactory := ⟨"test_materializer", [0], none, ["only_node"]⟩

/-- Materializer factory with a result joiner over two dependencies. -/
def fJoin : MaterializerFactory :=
  ⟨"test_materializer", [0], some jbJoin, ["first_node", "second_node"]⟩

/-- The join node `resolve` synthesizes for `fJoin` over `matG1`. -/
def matJoinNode : PNode :=
  ⟨"test_materializer_build_result", Ty.tyDict,
    [("first_node", Ty.tyDict, DepType.required),
      ("second_node", Ty.tyDict, DepType.required)],
    false, fun kwargs => jbJoin.build_result kwargs⟩

/-- The rank of the node a traversal frame concerns, under a rank function
certifying that dependencies strictly decrease (a DAG witness, which graph
construction guarantees before execution). -/
def frameRank (rk : String → Nat) : Frame → Nat
  | Frame.visit n => rk n
  | Frame.finalize n => rk n

/-- The stack discipline of the depth-first traversal: every frame sitting
above a pending `finalize` concerns a node of strictly smaller rank, so
nothing processed before that `finalize` can touch its node. -/
def FrameRel (rk : String → Nat) (f1 f2 : Frame) : Prop :=
  ∀ m, f2 = Frame.finalize m → frameRank rk f1 < rk m

/-- A rank function for the end-to-end example graph. -/
def rkXyz : String → Nat := fun s => if s = "z" then 1 else 0

end Hamilton

namespace Hamilton

/-! # Theorems settling the claims -/

/-- C1: For the graph `x() -> 1`, `y() -> 2`, `z(x, y) -> x + y`,
`Driver.execute(["z"])` returns the adapter's `build_result` applied to
exactly the mapping `{"z": 3}`, and `execute(["z"], overrides={"x": 100})`
yields `build_result {"z": 102}`; in the override run the executed node
subset invokes `z` and `y` but never `x`: the override's value replaces
computation and its exclusive upstream subtree is not executed. -/
theorem C1_execute_and_override_shortcircuit :
    (∀ (R : Type) (build_result : List (String × PyVal) → R) (check : Ty → PyVal → Bool),
      Driver_execute xyzGraph check build_result ["z"] [] [] =
        Except.ok (build_result [("z", PyVal.vint 3)])) ∧
    (∀ (R : Type) (build_result : List (String × PyVal) → R) (check : Ty → PyVal → Bool),
      Driver_execute xyzGraph check build_result ["z"] [("x", PyVal.vint 100)] [] =
        Except.ok (build_result [("z", PyVal.vint 102)])) ∧
    (runExecution xyzGraph [("x", PyVal.vint 100)] []
        ((xyzGraph.get_upstream_nodes ["z"] [] none).1.map (fun n => n.name))).map
      ExecState.invoked = some ["z", "y"] := by
  refine ⟨fun R br check => ?_, fun R br check => ?_, by rfl⟩ <;> rfl

/-- The code-point lexicographic order is total. -/
theorem charListLe_total : ∀ a b : List Char,
    charListLe a b = true ∨ charListLe b a = true
  | [], _ => Or.inl rfl
  | _ :: _, [] => Or.inr rfl
  | a :: as, b :: bs => by
    unfold charListLe
    by_cases h : a.toNat = b.toNat
    · rw [if_pos h, if_pos h.symm]
      exact charListLe_total as bs
    · rw [if_neg h, if_neg (fun hh => h hh.symm)]
      rcases Nat.lt_or_ge a.toNat b.toNat with hlt | hge
      · exact Or.inl (decide_eq_true hlt)
      · exact Or.inr (decide_eq_true (Nat.lt_of_le_of_ne hge (fun hh => h hh.symm)))

/-- The code-point lexicographic order is transitive. -/
theorem charListLe_trans : ∀ a b c : List Char,
    charListLe a b = true → charListLe b c = true → charListLe a c = true
  | [], _, _, _, _ => rfl
  | _ :: _, [], _, hab, _ => by simp [charListLe] at hab
  | _ :: _, _ :: _, [], _, hbc => by simp [charListLe] at hbc
  | a :: as, b :: bs, c :: cs, hab, hbc => by
    unfold charListLe at hab hbc ⊢
    by_cases h1 : a.toNat = b.toNat <;> by_cases h2 : b.toNat = c.toNat
    · rw [if_pos h1] at hab
      rw [if_pos h2] at hbc
      rw [if_pos (h1.trans h2)]
      exact charListLe_trans as bs cs hab hbc
    · rw [if_neg h2] at hbc
      rw [if_neg (fun hh : a.toNat = c.toNat => h2 (h1 ▸ hh))]
      exact decide_eq_true (h1 ▸ of_decide_eq_true hbc)
    · rw [if_neg h1] at hab
      rw [if_neg (fun hh : a.toNat = c.toNat => h1 (h2 ▸ hh))]
      exact decide_eq_true (h2 ▸ of_decide_eq_true hab)
    · rw [if_neg h1] at hab
      rw [if_neg h2] at hbc
      have hac : a.toNat < c.toNat :=
        Nat.lt_trans (of_decide_eq_true hab) (of_decide_eq_true hbc)
      rw [if_neg (Nat.ne_of_lt hac)]
      exact decide_eq_true hac

/-- C2: `validate_inputs` collects one violation for every required input
not supplied in config or inputs and for every supplied input failing the
adapter's type check, sorts the messages lexicographically, and raises one
aggregate error listing all of them (or succeeds when there are none) —
before any node executes, since `raw_execute` only runs the graph after
validation returns.  In particular, for a graph with required inputs `a`
and `b` and optional input `c` and empty runtime inputs, exactly two
errors are reported, for `a` and for `b`. -/
theorem C2_validation_exhaustive_sorted_aggregate :
    (∀ (g : FunctionGraph) (check : Ty → PyVal → Bool) (user_nodes : List PNode)
      (inputs : List (String × PyVal)) (nodesSet : List String),
      g.config.any (fun p => (inputs.lookup p.1).isSome) = false →
      ∃ sortedErrs : List String,
        List.Sorted (fun a b => strLeB a b = true) sortedErrs ∧
        sortedErrs.Perm
          (user_nodes.filterMap (perNodeError g check (inputs ++ g.config) nodesSet)) ∧
        validate_inputs g check user_nodes inputs nodesSet =
          (if sortedErrs.isEmpty then Except.ok ()
            else Except.error (aggregateErrors sortedErrs))) ∧
    (∀ check : Ty → PyVal → Bool,
      (abcUserNodes.filterMap
        (perNodeError abcGraph check ([] ++ abcGraph.config) abcGraph.nodeNames)).length = 2 ∧
      validate_inputs abcGraph check abcUserNodes [] abcGraph.nodeNames =
        Except.error (aggregateErrors
          [missingInputMsg abcGraph (inputNode "a" Ty.tyInt),
            missingInputMsg abcGraph (inputNode "b" Ty.tyInt)])) := by
  constructor
  · intro g check user_nodes inputs nodesSet hdisj
    haveI htot : IsTotal String (fun a b => strLeB a b = true) :=
      ⟨fun a b => charListLe_total a.data b.data⟩
    haveI htrans : IsTrans String (fun a b => strLeB a b = true) :=
      ⟨fun a b c hab hbc => charListLe_trans a.data b.data c.data hab hbc⟩
    refine ⟨List.insertionSort (fun a b => strLeB a b = true)
        (user_nodes.filterMap (perNodeError g check (inputs ++ g.config) nodesSet)),
      List.sorted_insertionSort _ _, List.perm_insertionSort _ _, ?_⟩
    unfold validate_inputs combine_config_and_inputs
    rw [hdisj]
    simp only [Bool.false_eq_true, if_false]
    set errors := user_nodes.filterMap (perNodeError g check (inputs ++ g.config) nodesSet)
      with herrs
    have hperm := List.perm_insertionSort (fun a b => strLeB a b = true) errors
    cases he : errors.isEmpty
    · have hne : errors ≠ [] := by
        intro hnil
        rw [hnil] at he
        simp at he
      have hsne : (List.insertionSort (fun a b => strLeB a b = true) errors).isEmpty = false := by
        rcases hs : List.insertionSort (fun a b => strLeB a b = true) errors with _ | ⟨x, xs⟩
        · rw [hs] at hperm
          exact absurd hperm.symm.eq_nil hne
        · rfl
      rw [hsne]
    · have hnil : errors = [] := by
        rcases hs : errors with _ | ⟨x, xs⟩
        · rfl
        · rw [hs] at he
          simp at he
      rw [hnil]
      rfl
  · intro check
    exact ⟨rfl, rfl⟩

/-- C2 witness: the validation characterization applied to the example
graph with empty runtime inputs (the config/inputs disjointness hypothesis
holds by computation). -/
theorem C2_validation_witness :
    ∃ sortedErrs : List String,
      List.Sorted (fun a b => strLeB a b = true) sortedErrs ∧
      sortedErrs.Perm
        (abcUserNodes.filterMap (perNodeError abcGraph (fun _ _ => true)
          ([] ++ abcGraph.config) abcGraph.nodeNames)) ∧
      validate_inputs abcGraph (fun _ _ => true) abcUserNodes [] abcGraph.nodeNames =
        (if sortedErrs.isEmpty then Except.ok ()
          else Except.error (aggregateErrors sortedErrs)) :=
  C2_validation_exhaustive_sorted_aggregate.1 abcGraph (fun _ _ => true) abcUserNodes []
    abcGraph.nodeNames rfl

/-- A membership in the consumers list yields a dependency edge. -/
theorem consumers_edge (g : FunctionGraph) {a c : String}
    (h : c ∈ consumersOf g a) : edgeB g a c = true := by
  unfold consumersOf FunctionGraph.dependedOnBy at h
  rcases List.mem_map.mp h with ⟨n, hn, rfl⟩
  rw [List.mem_filter] at hn
  unfold edgeB
  rw [List.any_eq_true]
  refine ⟨n, hn.1, ?_⟩
  rw [Bool.and_eq_true]
  exact ⟨beq_iff_eq.mpr rfl, hn.2⟩

/-- A dependency edge yields a membership in the consumers list. -/
theorem edge_consumers (g : FunctionGraph) {a c : String}
    (h : edgeB g a c = true) : c ∈ consumersOf g a := by
  unfold edgeB at h
  rcases List.any_eq_true.mp h with ⟨n, hn, hb⟩
  rw [Bool.and_eq_true] at hb
  unfold consumersOf FunctionGraph.dependedOnBy
  exact List.mem_map.mpr ⟨n, List.mem_filter.mpr ⟨hn, hb.2⟩, beq_iff_eq.mp hb.1⟩

/-- The target of a dependency edge is a node of the graph. -/
theorem edge_target_mem (g : FunctionGraph) {a c : String}
    (h : edgeB g a c = true) : c ∈ g.nodeNames := by
  unfold edgeB at h
  rcases List.any_eq_true.mp h with ⟨n, hn, hb⟩
  rw [Bool.and_eq_true] at hb
  exact List.mem_map.mpr ⟨n, hn, beq_iff_eq.mp hb.1⟩

/-- Soundness of the fuel-bounded search: a positive answer exhibits
reachability. -/
theorem reachN_sound (g : FunctionGraph) :
    ∀ (f : Nat) (a b : String), reachN g f a b = true → Reaches g a b := by
  intro f
  induction f with
  | zero =>
    intro a b h
    unfold reachN at h
    rw [beq_iff_eq.mp h]
    exact Reaches.refl b
  | succ f ih =>
    intro a b h
    unfold reachN at h
    rcases (Bool.or_eq_true _ _ ▸ h : (a == b) = true ∨ _) with heq | hany
    · rw [beq_iff_eq.mp heq]
      exact Reaches.refl b
    · rcases List.any_eq_true.mp hany with ⟨c, hc, hr⟩
      exact Reaches.head (consumers_edge g hc) (ih c b hr)

/-- An edge chain witnesses reachability. -/
theorem chainHolds_sound (g : FunctionGraph) :
    ∀ (l : List String) (a b : String), chainHolds g a l b → Reaches g a b := by
  intro l
  induction l with
  | nil =>
    intro a b h
    rw [(h : a = b)]
    exact Reaches.refl b
  | cons c t ih =>
    intro a b h
    exact Reaches.head h.1 (ih c b h.2)

/-- Reachability yields an explicit edge chain. -/
theorem reaches_chain (g : FunctionGraph) {a b : String} (h : Reaches g a b) :
    ∃ l, chainHolds g a l b := by
  induction h with
  | refl a => exact ⟨[], rfl⟩
  | head hedge _ ih =>
    rcases ih with ⟨l, hl⟩
    exact ⟨_ :: l, hedge, hl⟩

/-- Every intermediate name of an edge chain is a node of the graph. -/
theorem chain_mem_nodeNames (g : FunctionGraph) :
    ∀ (l : List String) (a b : String), chainHolds g a l b →
      ∀ c ∈ l, c ∈ g.nodeNames := by
  intro l
  induction l with
  | nil => intro a b _ c hc; cases hc
  | cons e t ih =>
    intro a b h c hc
    rcases List.mem_cons.mp hc with rfl | hc2
    · exact edge_target_mem g h.1
    · exact ih e b h.2 c hc2

/-- Splitting an edge chain at an occurrence of an intermediate name. -/
theorem chain_split (g : FunctionGraph) (x : String) (q : List String) (b : String) :
    ∀ (p : List String) (a : String), chainHolds g a (p ++ x :: q) b →
      chainHolds g a (p ++ [x]) x ∧ chainHolds g x q b := by
  intro p
  induction p with
  | nil => intro a h; exact ⟨⟨h.1, rfl⟩, h.2⟩
  | cons c p ih =>
    intro a h
    exact ⟨⟨h.1, (ih c h.2).1⟩, (ih c h.2).2⟩

/-- Joining two edge chains at a shared name. -/
theorem chain_join (g : FunctionGraph) (x : String) (q : List String) (b : String) :
    ∀ (p : List String) (a : String), chainHolds g a (p ++ [x]) x →
      chainHolds g x q b → chainHolds g a (p ++ x :: q) b := by
  intro p
  induction p with
  | nil => intro a h1 h2; exact ⟨h1.1, h2⟩
  | cons c p ih =>
    intro a h1 h2
    exact ⟨h1.1, ih c h1.2 h2⟩

/-- A list with a repetition splits around the repeated element. -/
theorem exists_dup_split :
    ∀ (l : List String), ¬ l.Nodup →
      ∃ x l1 l2 l3, l = l1 ++ x :: (l2 ++ x :: l3) := by
  intro l
  induction l with
  | nil => intro h; exact absurd List.nodup_nil h
  | cons c t ih =>
    intro h
    rw [List.nodup_cons] at h
    by_cases hc : c ∈ t
    · rcases List.append_of_mem hc with ⟨s, t2, rfl⟩
      exact ⟨c, [], s, t2, rfl⟩
    · have hnd : ¬ t.Nodup := fun ht => h ⟨hc, ht⟩
      rcases ih hnd with ⟨x, l1, l2, l3, rfl⟩
      exact ⟨x, c :: l1, l2, l3, rfl⟩

/-- A duplicate-free list contained in another is no longer than it. -/
theorem nodup_length_le {l m : List String} (hN : l.Nodup) (hsub : l ⊆ m) :
    l.length ≤ m.length := by
  have h1 : l.toFinset.card = l.length := List.toFinset_card_of_nodup hN
  have h2 : l.toFinset ⊆ m.toFinset := by
    intro x hx
    rw [List.mem_toFinset] at hx ⊢
    exact hsub hx
  have h3 := Finset.card_le_card h2
  have h4 := List.toFinset_card_le m
  omega

/-- Any edge chain shortens to one no longer than the node count: a longer
chain repeats a node name and the cycle between the repetitions can be cut
out. -/
theorem chain_shorten (g : FunctionGraph) :
    ∀ (n : Nat) (l : List String) (a b : String),
      l.length ≤ n → chainHolds g a l b →
      ∃ l2, l2.length ≤ g.nodes.length ∧ chainHolds g a l2 b := by
  intro n
  induction n with
  | zero =>
    intro l a b hlen h
    have hnil : l = [] := List.eq_nil_of_length_eq_zero (Nat.le_zero.mp hlen)
    subst hnil
    exact ⟨[], by simp, h⟩
  | succ n ih =>
    intro l a b hlen h
    by_cases hle : l.length ≤ g.nodes.length
    · exact ⟨l, hle, h⟩
    · have hsubN : l ⊆ g.nodeNames := fun {c} hc => chain_mem_nodeNames g l a b h c hc
      have hnodn : ¬ l.Nodup := by
        intro hnd
        have hlen2 := nodup_length_le hnd hsubN
        have hmapl : g.nodeNames.length = g.nodes.length := List.length_map _ _
        omega
      rcases exists_dup_split l hnodn with ⟨x, l1, l2, l3, rfl⟩
      have h1 := chain_split g x (l2 ++ x :: l3) b l1 a h
      have h2 := chain_split g x l3 b l2 x h1.2
      have h3 := chain_join g x l3 b l1 a h1.1 h2.2
      refine ih (l1 ++ x :: l3) a b ?_ h3
      simp only [List.length_append, List.length_cons] at hlen ⊢
      omega

/-- Completeness of the fuel-bounded search along a short enough chain. -/
theorem reachN_complete (g : FunctionGraph) :
    ∀ (l : List String) (a b : String) (f : Nat),
      chainHolds g a l b → l.length ≤ f → reachN g f a b = true := by
  intro l
  induction l with
  | nil =>
    intro a b f h _
    cases f with
    | zero => exact beq_iff_eq.mpr h
    | succ f =>
      unfold reachN
      rw [Bool.or_eq_true]
      exact Or.inl (beq_iff_eq.mpr h)
  | cons c t ih =>
    intro a b f h hlen
    cases f with
    | zero => exact absurd hlen (by simp)
    | succ f =>
      unfold reachN
      rw [Bool.or_eq_true]
      refine Or.inr (List.any_eq_true.mpr ⟨c, edge_consumers g h.1, ?_⟩)
      exact ih c b f h.2 (Nat.le_of_succ_le_succ hlen)

/-- The computable reachability decision agrees with propositional
reachability. -/
theorem reachB_iff (g : FunctionGraph) (a b : String) :
    reachB g a b = true ↔ Reaches g a b := by
  constructor
  · exact reachN_sound g g.nodes.length a b
  · intro h
    rcases reaches_chain g h with ⟨l, hl⟩
    rcases chain_shorten g l.length l a b (Nat.le_refl _) hl with ⟨l2, hlen, hl2⟩
    exact reachN_complete g l2 a b g.nodes.length hl2 hlen

/-- C3: `what_is_the_path_between` raises when either endpoint name is
absent from the graph; otherwise it returns exactly the names of the nodes
lying on some path from the upstream to the downstream name, inclusive of
both endpoints, and so the empty list when no path exists — on the diamond
graph A→B, A→C, B→D, C→D it returns all four nodes for (A, D) and the
empty list for (B, C). -/
theorem C3_path_between_correct :
    (∀ (g : FunctionGraph) (u d : String),
      (g.nodeNames.contains u = false →
        what_is_the_path_between g u d =
          Except.error ("Upstream node " ++ u ++ " not found in graph.")) ∧
      (g.nodeNames.contains u = true → g.nodeNames.contains d = false →
        what_is_the_path_between g u d =
          Except.error ("Downstream node " ++ d ++ " not found in graph."))) ∧
    (∀ (g : FunctionGraph) (u d : String) (l : List String),
      what_is_the_path_between g u d = Except.ok l →
      ∀ x, x ∈ l ↔ x ∈ g.nodeNames ∧ Reaches g u x ∧ Reaches g x d) ∧
    (what_is_the_path_between diamondGraph "A" "D" = Except.ok ["A", "B", "C", "D"] ∧
      what_is_the_path_between diamondGraph "B" "C" = Except.ok []) := by
  refine ⟨?_, ?_, by constructor <;> rfl⟩
  · intro g u d
    constructor
    · intro hu
      unfold what_is_the_path_between
      rw [hu]
      rfl
    · intro hu hd
      unfold what_is_the_path_between
      rw [hu, hd]
      rfl
  · intro g u d l h x
    unfold what_is_the_path_between at h
    cases hcu : g.nodeNames.contains u with
    | false =>
      simp at hcu
      simp [hcu] at h
    | true =>
      cases hcd : g.nodeNames.contains d with
      | false =>
        simp at hcd
        simp [hcd] at h
        split at h <;> exact Except.noConfusion h
      | true =>
        simp only [hcu, hcd, Bool.not_true, Bool.false_eq_true, if_false,
          Except.ok.injEq] at h
        subst h
        unfold FunctionGraph.nodes_between
        constructor
        · intro hx
          rcases List.mem_map.mp hx with ⟨nd, hnd, rfl⟩
          rw [List.mem_filter] at hnd
          have hb := Bool.and_eq_true _ _ ▸ hnd.2
          exact ⟨List.mem_map.mpr ⟨nd, hnd.1, rfl⟩,
            (reachB_iff g u nd.name).mp hb.1,
            (reachB_iff g nd.name d).mp hb.2⟩
        · rintro ⟨hxn, hux, hxd⟩
          rcases List.mem_map.mp hxn with ⟨nd, hnd, rfl⟩
          refine List.mem_map.mpr ⟨nd, List.mem_filter.mpr ⟨hnd, ?_⟩, rfl⟩
          rw [Bool.and_eq_true]
          exact ⟨(reachB_iff g u nd.name).mpr hux, (reachB_iff g nd.name d).mpr hxd⟩

/-- C3 witness: the raise behavior at absent names and the membership
characterization at a concrete node of the diamond graph. -/
theorem C3_path_between_correct_witness :
    (what_is_the_path_between diamondGraph "Q" "D" =
      Except.error ("Upstream node " ++ "Q" ++ " not found in graph.")) ∧
    (what_is_the_path_between diamondGraph "A" "Q" =
      Except.error ("Downstream node " ++ "Q" ++ " not found in graph.")) ∧
    ("B" ∈ diamondGraph.nodeNames ∧ Reaches diamondGraph "A" "B" ∧
      Reaches diamondGraph "B" "D") :=
  ⟨(C3_path_between_correct.1 diamondGraph "Q" "D").1 rfl,
    (C3_path_between_correct.1 diamondGraph "A" "Q").2 rfl rfl,
    (C3_path_between_correct.2.1 diamondGraph "A" "D" ["A", "B", "C", "D"] rfl "B").mp
      (by simp)⟩

/-- A stack of `visit` frames satisfies the rank discipline vacuously. -/
theorem pairwise_visits (rk : String → Nat) (l : List String) :
    List.Pairwise (FrameRel rk) (l.map Frame.visit) := by
  rw [List.pairwise_map]
  induction l with
  | nil => exact List.Pairwise.nil
  | cons a t ih =>
    exact List.pairwise_cons.mpr ⟨fun b _ m hm => Frame.noConfusion hm, ih⟩

/-- Core invariant of the depth-first traversal: under a dependency rank
function (DAG witness), a completed run from a stack obeying the rank
discipline — with every pending `finalize` unmemoized, no duplicate memo
keys, no duplicate invocations and every invoked name memoized — ends with
no duplicate memo keys and no duplicate invocations. -/
theorem executeFrames_write_once (g : FunctionGraph)
    (overrides inputs : List (String × PyVal)) (rk : String → Nat)
    (hrank : ∀ n ∈ g.nodes, ∀ d ∈ n.depNames, rk d < rk n.name) :
    ∀ (fuel : Nat) (frames : List Frame) (st st2 : ExecState),
      executeFrames g overrides inputs fuel frames st = some st2 →
      List.Pairwise (FrameRel rk) frames →
      (∀ m, Frame.finalize m ∈ frames → m ∉ st.memoKeys) →
      st.memoKeys.Nodup → st.invoked.Nodup →
      (∀ i ∈ st.invoked, i ∈ st.memoKeys) →
      st2.memoKeys.Nodup ∧ st2.invoked.Nodup := by
  intro fuel
  induction fuel with
  | zero =>
    intro frames st st2 h _ _ _ _ _
    simp only [executeFrames] at h
    exact Option.noConfusion h
  | succ fuel ih =>
    intro frames st st2 h hpw hpend hmN hiN hsub
    cases frames with
    | nil =>
      simp only [executeFrames, Option.some.injEq] at h
      subst h
      exact ⟨hmN, hiN⟩
    | cons fr rest =>
      cases fr with
      | visit n =>
        simp only [executeFrames] at h
        cases hmemo : st.memoKeys.contains n with
        | true =>
          rw [if_pos hmemo] at h
          exact ih rest st st2 h (List.pairwise_cons.mp hpw).2
            (fun m hm => hpend m (List.mem_cons_of_mem _ hm)) hmN hiN hsub
        | false =>
          have hcond : ¬ (st.memoKeys.contains n = true) := by
            rw [hmemo]
            exact Bool.false_ne_true
          rw [if_neg hcond] at h
          have hn : n ∉ st.memoKeys := fun hc => hcond (by simpa using hc)
          cases hov : overrides.lookup n with
          | some v =>
            simp only [hov] at h
            refine ih rest _ st2 h (List.pairwise_cons.mp hpw).2 ?_ ?_ hiN ?_
            · intro m hm hmem
              have hkeys : (⟨(n, v) :: st.memo, st.invoked⟩ : ExecState).memoKeys =
                  n :: st.memoKeys := rfl
              rw [hkeys] at hmem
              rcases List.mem_cons.mp hmem with heq | hmem2
              · have := (List.pairwise_cons.mp hpw).1 _ hm m rfl
                rw [heq] at this
                exact absurd this (Nat.lt_irrefl _)
              · exact hpend m (List.mem_cons_of_mem _ hm) hmem2
            · exact List.nodup_cons.mpr ⟨hn, hmN⟩
            · exact fun i hi => List.mem_cons_of_mem _ (hsub i hi)
          | none =>
            simp only [hov] at h
            cases hfind : g.findNode n with
            | none =>
              simp only [hfind] at h
              exact Option.noConfusion h
            | some nd =>
              simp only [hfind] at h
              have hnd_mem : nd ∈ g.nodes := List.mem_of_find?_eq_some hfind
              have hnd_name : nd.name = n := by
                have := List.find?_some hfind
                simpa using this
              cases hud : nd.userDefined with
              | true =>
                simp only [hud, if_true] at h
                cases hin : (inputs ++ g.config).lookup n with
                | none =>
                  simp only [hin] at h
                  exact Option.noConfusion h
                | some v =>
                  simp only [hin] at h
                  refine ih rest _ st2 h (List.pairwise_cons.mp hpw).2 ?_ ?_ hiN ?_
                  · intro m hm hmem
                    rcases List.mem_cons.mp hmem with heq | hmem2
                    · have := (List.pairwise_cons.mp hpw).1 _ hm m rfl
                      rw [heq] at this
                      exact absurd this (Nat.lt_irrefl _)
                    · exact hpend m (List.mem_cons_of_mem _ hm) hmem2
                  · exact List.nodup_cons.mpr ⟨hn, hmN⟩
                  · exact fun i hi => List.mem_cons_of_mem _ (hsub i hi)
              | false =>
                simp only [hud, Bool.false_eq_true, if_false] at h
                have hdeps : ∀ d ∈ nd.depNames, rk d < rk n := by
                  intro d hd
                  have h0 := hrank nd hnd_mem d hd
                  rwa [hnd_name] at h0
                refine ih _ st st2 h ?_ ?_ hmN hiN hsub
                · rw [List.pairwise_append]
                  refine ⟨pairwise_visits rk nd.depNames, ?_, ?_⟩
                  · refine List.pairwise_cons.mpr ⟨?_, (List.pairwise_cons.mp hpw).2⟩
                    intro f2 hf2 m hm
                    exact (List.pairwise_cons.mp hpw).1 f2 hf2 m hm
                  · intro a ha b hb m hm
                    rcases List.mem_map.mp ha with ⟨d, hd, rfl⟩
                    rcases List.mem_cons.mp hb with rfl | hb2
                    · cases hm
                      exact hdeps d hd
                    · have h1 := (List.pairwise_cons.mp hpw).1 b hb2 m hm
                      exact Nat.lt_trans (hdeps d hd) h1
                · intro m hm
                  rcases List.mem_append.mp hm with hmv | hmf
                  · rcases List.mem_map.mp hmv with ⟨x, _, hx⟩
                    cases hx
                  · rcases List.mem_cons.mp hmf with heq | hmem2
                    · cases heq
                      exact hn
                    · exact hpend m (List.mem_cons_of_mem _ hmem2)
      | finalize n =>
        simp only [executeFrames] at h
        cases hfind : g.findNode n with
        | none =>
          simp only [hfind] at h
          exact Option.noConfusion h
        | some nd =>
          simp only [hfind] at h
          have hnmem : n ∉ st.memoKeys := hpend n (List.mem_cons_self _ _)
          refine ih rest _ st2 h (List.pairwise_cons.mp hpw).2 ?_ ?_ ?_ ?_
          · intro m hm hmem
            rcases List.mem_cons.mp hmem with heq | hmem2
            · have := (List.pairwise_cons.mp hpw).1 _ hm m rfl
              rw [heq] at this
              exact absurd this (Nat.lt_irrefl _)
            · exact hpend m (List.mem_cons_of_mem _ hm) hmem2
          · exact List.nodup_cons.mpr ⟨hnmem, hmN⟩
          · refine List.nodup_cons.mpr ⟨fun hc => hnmem (hsub n hc), hiN⟩
          · intro i hi
            rcases List.mem_cons.mp hi with rfl | hi2
            · exact List.mem_cons_self _ _
            · exact List.mem_cons_of_mem _ (hsub i hi2)

/-- C4: within a single execute call, every node required by the run has
its callable invoked at most once regardless of fan-in, and the memo table
is written at most once per node name — certified for every graph carrying
a dependency rank function (the DAG shape graph construction guarantees),
for arbitrary fuel, requested names, overrides and inputs. -/
theorem C4_invoked_at_most_once :
    ∀ (g : FunctionGraph) (overrides inputs : List (String × PyVal))
      (rk : String → Nat),
      (∀ n ∈ g.nodes, ∀ d ∈ n.depNames, rk d < rk n.name) →
      ∀ (nodeNames : List String) (st2 : ExecState),
        runExecution g overrides inputs nodeNames = some st2 →
        (∀ name, st2.invoked.count name ≤ 1) ∧
        (∀ name, st2.memoKeys.count name ≤ 1) := by
  intro g overrides inputs rk hrank nodeNames st2 h
  unfold runExecution at h
  have hres := executeFrames_write_once g overrides inputs rk hrank _
    (nodeNames.map Frame.visit) ⟨[], []⟩ st2 h
    (pairwise_visits rk nodeNames)
    (by
      intro m hm
      rcases List.mem_map.mp hm with ⟨x, _, hx⟩
      cases hx)
    List.nodup_nil List.nodup_nil (by intro i hi; cases hi)
  exact ⟨List.nodup_iff_count_le_one.mp hres.2,
    List.nodup_iff_count_le_one.mp hres.1⟩

/-- C4 witness: the at-most-once facts at the concrete end-to-end graph,
its rank function discharging the DAG hypothesis by computation. -/
theorem C4_invoked_at_most_once_witness :
    (∀ name, (ExecState.mk
        [("z", PyVal.vint 3), ("y", PyVal.vint 2), ("x", PyVal.vint 1)]
        ["z", "y", "x"]).invoked.count name ≤ 1) ∧
    (∀ name, (ExecState.mk
        [("z", PyVal.vint 3), ("y", PyVal.vint 2), ("x", PyVal.vint 1)]
        ["z", "y", "x"]).memoKeys.count name ≤ 1) :=
  C4_invoked_at_most_once xyzGraph [] [] rkXyz
    (by decide) ["z"]
    (ExecState.mk
      [("z", PyVal.vint 3), ("y", PyVal.vint 2), ("x", PyVal.vint 1)]
      ["z", "y", "x"]) rfl

/-- C5 counterexample: the claim says the override value wins in the
prehydrated result cache even when the name also appears in inputs, but
driver.py:762 builds `{**overrides, **inputs}`, where a later unpacking
wins: with overrides `{a: 1}` and inputs `{a: 2}` the cache holds 2,
not the override value 1. -/
theorem C5_counterexample_inputs_shadow_overrides :
    resultCacheRead (prehydrated_results [("a", PyVal.vint 1)] [("a", PyVal.vint 2)]) "a" =
        some (PyVal.vint 2) ∧
    resultCacheRead (prehydrated_results [("a", PyVal.vint 1)] [("a", PyVal.vint 2)]) "a" ≠
        some (PyVal.vint 1) := by
  exact ⟨rfl, by decide⟩

/-- C5 (amended): before the graph runner starts, the result cache contains
an entry for every name in overrides and every name in inputs; a name
appearing in inputs is cached at the inputs value (inputs take precedence
over overrides on a shared name), and a name only in overrides is cached
at the override value. -/
theorem C5_prehydration_amended :
    ∀ (overrides inputs : List (String × PyVal)) (k : String),
      ((overrides.lookup k).isSome ∨ (inputs.lookup k).isSome →
        (resultCacheRead (prehydrated_results overrides inputs) k).isSome) ∧
      (∀ v, inputs.lookup k = some v →
        resultCacheRead (prehydrated_results overrides inputs) k = some v) ∧
      (inputs.lookup k = none → ∀ v, overrides.lookup k = some v →
        resultCacheRead (prehydrated_results overrides inputs) k = some v) := by
  intro overrides inputs k
  unfold resultCacheRead prehydrated_results
  induction inputs with
  | nil =>
    refine ⟨fun h => ?_, fun v hv => by simp at hv, fun _ v hv => by simpa using hv⟩
    rcases h with h | h
    · simpa using h
    · simp at h
  | cons p ps ih =>
    by_cases hk : p.1 = k
    · subst hk
      refine ⟨fun _ => ?_, fun v hv => ?_, fun hnone => ?_⟩
      · simp [List.lookup]
      · simp only [List.cons_append, List.lookup] at hv ⊢
        simpa using hv
      · exfalso
        simp [List.lookup] at hnone
    · have hbeq : (k == p.1) = false := by
        simp [BEq.beq]
        exact fun h => hk h.symm
      refine ⟨fun h => ?_, fun v hv => ?_, fun hnone v hv => ?_⟩
      · rcases h with h | h
        · have := (ih).1 (Or.inl h)
          simp only [List.cons_append, List.lookup, hbeq] at this ⊢
          exact this
        · simp only [List.lookup, hbeq] at h
          have := (ih).1 (Or.inr h)
          simp only [List.cons_append, List.lookup, hbeq] at this ⊢
          exact this
      · simp only [List.lookup, hbeq] at hv
        have := (ih).2.1 v hv
        simp only [List.cons_append, List.lookup, hbeq] at this ⊢
        exact this
      · simp only [List.lookup, hbeq] at hnone
        have := (ih).2.2 hnone v hv
        simp only [List.cons_append, List.lookup, hbeq] at this ⊢
        exact this

/-- C5 witness: the amended prehydration facts hold at a concrete instance:
a name only in overrides is cached at the override value. -/
theorem C5_prehydration_amended_witness :
    resultCacheRead (prehydrated_results [("a", PyVal.vint 1)] []) "a" =
      some (PyVal.vint 1) :=
  (C5_prehydration_amended [("a", PyVal.vint 1)] [] "a").2.2 rfl (PyVal.vint 1) rfl

/-- C6: a Builder with the V2 driver enabled and no execution manager,
executors, grouping strategy, or result builder set builds a `DriverV2`
whose execution manager is a `DefaultExecutionManager` pairing the
synchronous local executor with a `MultiProcessingExecutor` capped at 10
concurrent tasks, whose grouping strategy is `GroupByRepeatableBlocks`,
and whose result builder is `DictResult`; with V2 not enabled, `build`
returns a V1 Driver over the accumulated config, modules, and adapter. -/
theorem C6_build_defaults :
    (∀ (b : Builder), truthy b.v2_driver = true →
      b.execution_manager = PyObj.pynone → b.local_executor = PyObj.pynone →
      b.remote_executor = PyObj.pynone → b.grouping_strategy = PyObj.pynone →
      b.result_builder = PyObj.pynone →
      b.build = BuiltDriver.v2 b.config b.modules
        (ExecutionManagerD.defaultManager TaskExecutorD.synchronousLocal
          (TaskExecutorD.multiProcessing 10))
        GroupingStrategyD.groupByRepeatableBlocks ResultBuilderD.dictResult) ∧
    (∀ (b : Builder), truthy b.v2_driver = false →
      b.build = BuiltDriver.v1 b.config b.modules b.adapter) := by
  constructor
  · intro b hv hem hl hr hg hrb
    unfold Builder.build
    rw [hv, hem, hl, hr, hg, hrb]
    rfl
  · intro b hv
    unfold Builder.build
    rw [hv]
    rfl

/-- C6 witness: both build paths at concrete builders — the V2-enabled
default builder and the fresh (V1) builder. -/
theorem C6_build_defaults_witness :
    Builder.build { Builder.init with v2_driver := PyObj.pybool true } =
      BuiltDriver.v2 [] []
        (ExecutionManagerD.defaultManager TaskExecutorD.synchronousLocal
          (TaskExecutorD.multiProcessing 10))
        GroupingStrategyD.groupByRepeatableBlocks ResultBuilderD.dictResult ∧
    Builder.init.build = BuiltDriver.v1 [] [] PyObj.pynone :=
  ⟨C6_build_defaults.1 { Builder.init with v2_driver := PyObj.pybool true }
      rfl rfl rfl rfl rfl rfl,
    C6_build_defaults.2 Builder.init rfl⟩

/-- Resolving the dependency names of a materializer yields one node per
name. -/
theorem resolveDeps_length (g : FunctionGraph) :
    ∀ (ds : List String) (l : List PNode), resolveDeps g ds = some l → l.length = ds.length
  | [], l, h => by
    unfold resolveDeps at h
    cases h
    rfl
  | name :: rest, l, h => by
    unfold resolveDeps at h
    cases hf : g.findNode name with
    | none => rw [hf] at h; cases h
    | some nd =>
      rw [hf] at h
      cases hr : resolveDeps g rest with
      | none => rw [hr] at h; cases h
      | some rest2 =>
        rw [hr] at h
        cases h
        simp [resolveDeps_length g rest rest2 hr]

/-- C7: `modify_graph` returns a new graph whose node mapping is the union
of the original nodes and the synthesized materializer nodes, the original
graph's mapping left unchanged (every original node is still found under
its name); `resolve` synthesizes a join node named `<name>_build_result`
plus a save node when a result joiner is supplied, and the save node alone
when there is exactly one dependency and no joiner. -/
theorem C7_modify_graph_pure_extension :
    (∀ (g : FunctionGraph) (fs : List MaterializerFactory) (g2 : FunctionGraph),
      modify_graph g fs = Except.ok g2 →
      ∃ additional : List PNode,
        collectResolved g fs = Except.ok additional ∧
        g2.nodes = g.nodes ++ pyNodeDict additional ∧
        g2.config = g.config ∧
        (∀ name : String, g.nodeNames.contains name = true →
          g2.findNode name = g.findNode name)) ∧
    (∀ (f : MaterializerFactory) (g : FunctionGraph) (rb : RMixin) (l : List PNode),
      f.result_builder = some rb → f.resolve g = Except.ok l →
      ∃ join : PNode, l = [join, mkSaverNode f.name join] ∧
        join.name = f.name ++ "_build_result") ∧
    (∀ (f : MaterializerFactory) (g : FunctionGraph) (l : List PNode),
      f.result_builder = none → f.resolve g = Except.ok l →
      ∃ dep : PNode, l = [mkSaverNode f.name dep] ∧ f.dependencies.length = 1) := by
  refine ⟨?_, ?_, ?_⟩
  · intro g fs g2 h
    unfold modify_graph at h
    cases hc : collectResolved g fs with
    | error e => rw [hc] at h; cases h
    | ok additional =>
      rw [hc] at h
      unfold FunctionGraph.with_nodes at h
      cases hcol : (pyNodeDict additional).any (fun n => g.nodeNames.contains n.name) with
      | true =>
        simp only [hcol, if_true] at h
        have hex : ∃ x ∈ pyNodeDict additional, x.name ∈ g.nodeNames := by
          rw [List.any_eq_true] at hcol
          rcases hcol with ⟨x, hx, hxm⟩
          exact ⟨x, hx, by simpa using hxm⟩
        simp [hex] at h
      | false =>
        simp only [hcol, Bool.false_eq_true, if_false, Except.ok.injEq] at h
        refine ⟨additional, rfl, ?_, ?_, ?_⟩
        · rw [← h]
        · rw [← h]
        · intro name hname
          rw [← h]
          show (g.nodes ++ pyNodeDict additional).find? (fun n => n.name == name) =
            g.findNode name
          rw [List.find?_append]
          have hsome : (g.nodes.find? (fun n => n.name == name)).isSome = true := by
            rw [List.find?_isSome]
            rcases List.contains_iff_exists_mem_beq.mp hname with ⟨a2, ha2, hbeq⟩
            have haname : name = a2 := beq_iff_eq.mp hbeq
            rcases List.mem_map.mp ha2 with ⟨nd, hnd, hndname⟩
            exact ⟨nd, hnd, beq_iff_eq.mpr (by rw [hndname, haname])⟩
          rcases Option.isSome_iff_exists.mp hsome with ⟨nd, hnd⟩
          unfold FunctionGraph.findNode
          rw [hnd]
          rfl
  · intro f g rb l hrb h
    unfold MaterializerFactory.resolve at h
    cases hd : resolveDeps g f.dependencies with
    | none => rw [hd] at h; cases h
    | some deps =>
      rw [hd, hrb] at h
      simp only [Except.ok.injEq] at h
      exact ⟨_, h.symm, rfl⟩
  · intro f g l hrb h
    unfold MaterializerFactory.resolve at h
    cases hd : resolveDeps g f.dependencies with
    | none => rw [hd] at h; cases h
    | some deps =>
      rw [hd, hrb] at h
      cases hlen : (deps.length != 1) with
      | true => simp [hlen] at h
      | false =>
        simp only [hlen, Bool.false_eq_true, if_false] at h
        have hlen1 : deps.length = 1 := by simpa using hlen
        rcases deps with _ | ⟨dep, _ | ⟨d2, rest⟩⟩
        · simp at hlen1
        · simp only [Except.ok.injEq] at h
          refine ⟨dep, h.symm, ?_⟩
          rw [← resolveDeps_length g f.dependencies [dep] hd]
          rfl
        · simp at hlen1

/-- C7 witness: the extension facts at concrete inputs — a one-node graph
extended by a joiner-less materializer, and the two shapes of `resolve`. -/
theorem C7_modify_graph_pure_extension_witness :
    (∃ additional : List PNode,
      collectResolved matG0 [fNoJoin] = Except.ok additional ∧
      (FunctionGraph.mk
        [dictNode "only_node", mkSaverNode "test_materializer" (dictNode "only_node")]
        []).nodes = matG0.nodes ++ pyNodeDict additional ∧
      (FunctionGraph.mk
        [dictNode "only_node", mkSaverNode "test_materializer" (dictNode "only_node")]
        []).config = matG0.config ∧
      (∀ name : String, matG0.nodeNames.contains name = true →
        (FunctionGraph.mk
          [dictNode "only_node", mkSaverNode "test_materializer" (dictNode "only_node")]
          []).findNode name = matG0.findNode name)) ∧
    (∃ join : PNode,
      [matJoinNode, mkSaverNode "test_materializer" matJoinNode] =
        [join, mkSaverNode fJoin.name join] ∧
      join.name = fJoin.name ++ "_build_result") ∧
    (∃ dep : PNode,
      [mkSaverNode "test_materializer" (dictNode "only_node")] =
        [mkSaverNode fNoJoin.name dep] ∧
      fNoJoin.dependencies.length = 1) :=
  ⟨C7_modify_graph_pure_extension.1 matG0 [fNoJoin]
      (FunctionGraph.mk
        [dictNode "only_node", mkSaverNode "test_materializer" (dictNode "only_node")]
        []) rfl,
    C7_modify_graph_pure_extension.2.1 fJoin matG1 jbJoin
      [matJoinNode, mkSaverNode "test_materializer" matJoinNode] rfl rfl,
    C7_modify_graph_pure_extension.2.2 fNoJoin matG0
      [mkSaverNode "test_materializer" (dictNode "only_node")] rfl rfl⟩

/-- C8: the function returned by `capture_function_usage(f)` returns the
same value as `f` on every argument and raises iff `f` raises, the same
exception: whatever the telemetry-enabled flag and however the telemetry
send turns out (including failure), the instrumentation path never alters
the call's outcome. -/
theorem C8_capture_function_usage_transparent :
    ∀ (E α β : Type) (call_fn : α → Except E β) (enabled : Bool)
      (send : Except E Unit) (x : α),
      capture_function_usage call_fn enabled send x = call_fn x := by
  intro E α β f enabled send x
  unfold capture_function_usage tryFinally telemetrySuite
  cases enabled <;> cases send <;> rfl

/-- C9: a user-defined node whose supplied value is `None` never yields a
type-requirement-mismatch error (nor any other error), whatever its
declared type and whatever the adapter's `check_input_type` would say:
driver.py:214 consults the checker only for non-`None` values; in
particular the whole validation succeeds for the example graph when every
input is supplied as `None`, for every checker. -/
theorem C9_none_passes_validation :
    (∀ (g : FunctionGraph) (check : Ty → PyVal → Bool)
      (allInputs : List (String × PyVal)) (nodesSet : List String) (un : PNode),
      allInputs.lookup un.name = some PyVal.vnone →
      perNodeError g check allInputs nodesSet un = none) ∧
    (∀ check : Ty → PyVal → Bool,
      validate_inputs abcGraph check abcUserNodes
        [("a", PyVal.vnone), ("b", PyVal.vnone), ("c", PyVal.vnone)]
        abcGraph.nodeNames = Except.ok ()) := by
  constructor
  · intro g check allInputs ns un h
    unfold perNodeError
    rw [h]
    simp
  · intro check
    rfl

/-- C9 witness: the per-node validation of a `None`-valued input yields no
error at a concrete instance with a checker rejecting everything. -/
theorem C9_none_passes_validation_witness :
    perNodeError abcGraph (fun _ _ => false) [("a", PyVal.vnone)]
      abcGraph.nodeNames (inputNode "a" Ty.tyInt) = none :=
  C9_none_passes_validation.1 abcGraph (fun _ _ => false) [("a", PyVal.vnone)]
    abcGraph.nodeNames (inputNode "a" Ty.tyInt) rfl

/-- C10: `Builder.with_adapter` on a freshly constructed Builder always
raises, whatever adapter is passed: the guard compares the `v2_driver`
field — initialized to `False` — against the unset sentinel `None`, so
the "v2 driver enabled" check trips unconditionally; more generally it
raises for any builder whose `v2_driver` field is not `None`, which every
Builder operation preserves, so the adapter can never be attached. -/
theorem C10_with_adapter_always_raises :
    (∀ a : Nat, Builder.init.with_adapter a =
      Except.error "Cannot set adapter with v2 driver enabled.") ∧
    (∀ (b : Builder) (a : Nat), b.v2_driver ≠ PyObj.pynone →
      b.with_adapter a = Except.error "Cannot set adapter with v2 driver enabled.") := by
  constructor
  · intro a
    rfl
  · intro b a h
    unfold Builder.with_adapter require_field_unset
    have : (b.v2_driver != PyObj.pynone) = true := bne_iff_ne.mpr h
    rw [this]
    rfl

/-- C10 witness: the general form applied to a builder that did enable the
V2 driver: the adapter still cannot be attached. -/
theorem C10_with_adapter_always_raises_witness :
    Builder.with_adapter { Builder.init with v2_driver := PyObj.pybool true } 3 =
      Except.error "Cannot set adapter with v2 driver enabled." :=
  C10_with_adapter_always_raises.2 { Builder.init with v2_driver := PyObj.pybool true } 3
    (by simp)

end Hamilton
